import Mathlib

/-!
Verification of the sciunit execution/caching subsystem:
the memoizing invocation wrapper `method_cache` (sciunit/utils.py)
and the evaluation orchestrator `run` (sciunit/__main__.py),
as a shallow embedding in Lean 4.
-/

namespace Sciunit

/-- A Python structured value as seen by the fingerprinting machinery:
integers, strings, nested dictionaries with string keys, and values that
have no canonical encoding (e.g. open file handles), which fingerprinting
rejects. -/
inductive SValue where
  | vint : Int → SValue
  | vstr : String → SValue
  | vunenc : Nat → SValue
  | vdict : List (String × SValue) → SValue

mutual

/-- Structural boolean equality on `SValue`. -/
def SValue.beq : SValue → SValue → Bool
  | .vint a, .vint b => a == b
  | .vstr a, .vstr b => a == b
  | .vunenc a, .vunenc b => a == b
  | .vdict a, .vdict b => beqPairs a b
  | _, _ => false

/-- Structural boolean equality on key-value pair lists. -/
def beqPairs : List (String × SValue) → List (String × SValue) → Bool
  | [], [] => true
  | (k, v) :: r, (k', v') :: r' => k == k' && SValue.beq v v' && beqPairs r r'
  | _, _ => false

end

mutual

theorem SValue.beq_iff : (a b : SValue) → (SValue.beq a b = true ↔ a = b)
  | .vint _, .vint _ => by simp [SValue.beq]
  | .vint _, .vstr _ => by simp [SValue.beq]
  | .vint _, .vunenc _ => by simp [SValue.beq]
  | .vint _, .vdict _ => by simp [SValue.beq]
  | .vstr _, .vint _ => by simp [SValue.beq]
  | .vstr _, .vstr _ => by simp [SValue.beq]
  | .vstr _, .vunenc _ => by simp [SValue.beq]
  | .vstr _, .vdict _ => by simp [SValue.beq]
  | .vunenc _, .vint _ => by simp [SValue.beq]
  | .vunenc _, .vstr _ => by simp [SValue.beq]
  | .vunenc _, .vunenc _ => by simp [SValue.beq]
  | .vunenc _, .vdict _ => by simp [SValue.beq]
  | .vdict _, .vint _ => by simp [SValue.beq]
  | .vdict _, .vstr _ => by simp [SValue.beq]
  | .vdict _, .vunenc _ => by simp [SValue.beq]
  | .vdict a, .vdict b => by simp [SValue.beq, beqPairs_iff a b]

theorem beqPairs_iff : (a b : List (String × SValue)) → (beqPairs a b = true ↔ a = b)
  | [], [] => by simp [beqPairs]
  | [], _ :: _ => by simp [beqPairs]
  | _ :: _, [] => by simp [beqPairs]
  | (k, v) :: r, (k', v') :: r' => by
      rw [beqPairs, Bool.and_eq_true, Bool.and_eq_true, beq_iff_eq,
        SValue.beq_iff v v', beqPairs_iff r r', List.cons.injEq,
        Prod.mk.injEq]

end

instance : DecidableEq SValue := fun a b =>
  decidable_of_iff _ (SValue.beq_iff a b)

/-- `d[k]`-style lookup in an association list modelling a Python dict. -/
def lookupA {κ α : Type} [DecidableEq κ] : List (κ × α) → κ → Option α
  | [], _ => none
  | p :: rest, k => if p.1 = k then some p.2 else lookupA rest k

/-- `d[k] = v` assignment on a Python dict: overwrite the key in place if
present (keeping its position), append it otherwise. -/
def setA {κ α : Type} [DecidableEq κ] : List (κ × α) → κ → α → List (κ × α)
  | [], k, v => [(k, v)]
  | p :: rest, k, v =>
    if p.1 = k then (k, v) :: rest else p :: setA rest k v

/-- `d.update(s)` on Python dicts: every key of `s` is written into `d`;
keys of `d` absent from `s` are left untouched. -/
def updateA {κ α : Type} [DecidableEq κ] (d s : List (κ × α)) : List (κ × α) :=
  s.foldl (fun acc p => setA acc p.1 p.2) d

/-- A model's `__dict__`. -/
abbrev Dict := List (String × SValue)

/-- `key[0] != '_'`: the attribute name's first character is not the
internal marker (attribute names are Python identifiers, hence nonempty;
on the empty string we choose `true`, a case `key[0]` could not handle). -/
def isPublicKey (k : String) : Bool :=
  match k.data with
  | [] => true
  | c :: _ => c != '_'

/-- `{key: value for key, value in model.__dict__.items() if key[0] != '_'}`:
the public attributes of the model. -/
def publicAttrs (d : Dict) : Dict :=
  d.filter (fun p => isPublicKey p.1)

/-- Lexicographic order on character lists, by code point. -/
def charListLt : List Char → List Char → Bool
  | [], [] => false
  | [], _ :: _ => true
  | _ :: _, [] => false
  | a :: as, b :: bs =>
    if a.toNat < b.toNat then true
    else if b.toNat < a.toNat then false
    else charListLt as bs

/-- The canonical (lexicographic) order on attribute names. -/
def keyLt (a b : String) : Bool := charListLt a.data b.data

/-- Insertion of a pair into a key-sorted pair list. -/
def insertPair (p : String × SValue) : List (String × SValue) →
    List (String × SValue)
  | [] => [p]
  | q :: rest => if keyLt p.1 q.1 then p :: q :: rest else q :: insertPair p rest

/-- Sorting a pair list by key. -/
def sortPairs (l : List (String × SValue)) : List (String × SValue) :=
  l.foldr insertPair []

/-- Drop pairs whose key already occurred earlier in the list. -/
def dedupGo (seen : List String) : List (String × SValue) →
    List (String × SValue)
  | [] => []
  | p :: rest =>
    if p.1 ∈ seen then dedupGo seen rest
    else p :: dedupGo (p.1 :: seen) rest

/-- Keep only the first occurrence of each key. -/
def dedupKeys (d : List (String × SValue)) : List (String × SValue) :=
  dedupGo [] d

mutual

/-- Modelled from the spec: the canonical normalization performed by
`SciUnit.dict_hash` (defined in `sciunit/base.py`, which is not part of this
source tree): "mapping keys are sorted into a canonical order; sequences
retain position; all values are converted to a canonical encoding". -/
def SValue.canon : SValue → SValue
  | .vdict d => .vdict (sortPairs (dedupKeys (canonPairs d)))
  | v => v

/-- Canonicalize every value of a pair list. -/
def canonPairs : List (String × SValue) → List (String × SValue)
  | [] => []
  | (k, v) :: rest => (k, v.canon) :: canonPairs rest

end

mutual

/-- Modelled from the spec: whether a value can be canonically encoded for
hashing (`sciunit/base.py` is not part of this source tree); unencodable
values make `dict_hash` fail with a `FingerprintError`. -/
def SValue.encodable : SValue → Bool
  | .vint _ => true
  | .vstr _ => true
  | .vunenc _ => false
  | .vdict d => encodablePairs d

/-- Conjunction of `SValue.encodable` over the values of a pair list. -/
def encodablePairs : List (String × SValue) → Bool
  | [] => true
  | (_, v) :: rest => v.encodable && encodablePairs rest

end

/-- A fingerprint (cache key); `dict_hash` digests are opaque deduplication
keys, modelled by the canonical encoding itself, which preserves the spec's
determinism (equal canonical inputs give equal digests) and idealizes its
collision-freedom. -/
abbrev Fingerprint := SValue

/-- The error kinds the wrapper and orchestrator can surface. -/
inductive CacheErr where
  | fingerprintError
  | valueError (msg : String)
  | assertionError (msg : String)
  | typeError
  deriving DecidableEq

/-- Modelled from the spec: `SciUnit.dict_hash` (in `sciunit/base.py`, not
part of this source tree) deterministically digests a canonicalized
structured value and fails with a `FingerprintError` on values that cannot
be canonically encoded. -/
def dict_hash (v : SValue) : Except CacheErr Fingerprint :=
  if v.encodable then .ok v.canon else .error .fingerprintError

/-- A Python model instance as the wrapper sees it: its `__dict__`, its
`id()`, and the method names it exposes (for `hasattr`). -/
structure Model where
  attrs : Dict
  instId : Nat
  methods : List String

/-- `(datetime.now(), model.__dict__.copy())`. -/
abbrev CacheEntry := Nat × Dict

/-- `model.__class__.cached_runs`: fingerprint → cache entry. -/
abbrev RunCache := List (Fingerprint × CacheEntry)

/-- The argument extraction of `decorate`: if the wrapped function *is* the
cached method, its own kwargs are the method arguments; otherwise the entry
of kwargs named after the method (or an empty dict when absent). -/
def methodArgsOf (funcName method : String)
    (kwargs : List (String × SValue)) : SValue :=
  if funcName = method then .vdict kwargs
  else
    match lookupA kwargs method with
    | some v => v
    | none => .vdict []

/-- The hash-key structure under policy `by='value'`:
`{'attrs': model_dict, 'args': method_args}` where `model_dict` keeps only
public attributes. -/
def valueSigInput (attrs : Dict) (method_args : SValue) : SValue :=
  .vdict [("attrs", .vdict (publicAttrs attrs)), ("args", method_args)]

/-- The hash-key structure under policy `by='instance'`:
`{'id': id(model), 'args': method_args}`. -/
def instanceSigInput (instId : Nat) (method_args : SValue) : SValue :=
  .vdict [("id", .vint instId), ("args", method_args)]

/-- The `method_signature` computation of `decorate`: hash over public
attributes and arguments for `by='value'`, over the instance identity and
arguments for `by='instance'`, and a `ValueError` for any other policy. -/
def computeSignature (byPolicy : String) (model : Model)
    (method_args : SValue) : Except CacheErr Fingerprint :=
  if byPolicy = "value" then dict_hash (valueSigInput model.attrs method_args)
  else if byPolicy = "instance" then
    dict_hash (instanceSigInput model.instId method_args)
  else .error (.valueError "Cache type must be 'value' or 'instance'")

/-- The observable outcome of one wrapped invocation: the run cache after
the call, the final model `__dict__` (or the error raised), and how many
times the underlying expensive operation executed. -/
structure DecOut where
  cache : RunCache
  result : Except CacheErr Dict
  opRuns : Nat

/-- Shallow embedding of the wrapper `decorate` produced by
`method_cache(by=..., method=...)` applied to a function named `funcName`.
`op` is the semantic action on the model's `__dict__` of the underlying
expensive operation (`f = getattr(model, method); f(**method_args)`),
`func` the state mutation of the wrapped method body invoked at the end,
and `now` stands for `datetime.now()`.  The call first asserts the model
has the cached method, extracts the method arguments, computes the cache
key per the policy, then either executes-and-stores (cache miss) or
restores the snapshot via `dict.update` without executing (cache hit),
and finally runs the wrapped body. -/
def decorate (byPolicy method funcName : String)
    (op : Dict → Dict → Dict) (func : Dict → Dict) (now : Nat)
    (model : Model) (kwargs : List (String × SValue)) (cache : RunCache) :
    DecOut :=
  if ¬ model.methods.contains method then
    ⟨cache, .error (.assertionError method), 0⟩
  else
    let method_args := methodArgsOf funcName method kwargs
    match computeSignature byPolicy model method_args with
    | .error e => ⟨cache, .error e, 0⟩
    | .ok sig =>
      match lookupA cache sig with
      | none =>
        match method_args with
        | .vdict argD =>
          let attrs1 := op model.attrs argD
          ⟨setA cache sig (now, attrs1), .ok (func attrs1), 1⟩
        | _ => ⟨cache, .error .typeError, 0⟩
      | some entry =>
        ⟨cache, .ok (func (updateA model.attrs entry.2)), 0⟩

/-- A test collaborator: `judge(models, stop_on_error)` returns a score
array or raises. -/
structure TestObj (M S E : Type) where
  judge : List M → Bool → Except E S

/-- A suite collaborator: `judge(models, stop_on_error)` returns a score
matrix or raises. -/
structure SuiteObj (M X E : Type) where
  judge : List M → Bool → Except E X

/-- One judge invocation performed by the evaluation loop, recording which
collaborator was invoked and the `stop_on_error` flag passed to it. -/
inductive Ev (M S X E : Type) where
  | testCall (t : TestObj M S E) (soe : Bool)
  | suiteCall (s : SuiteObj M X E) (soe : Bool)

/-- The errors `run` can surface: a failed collaborator validation
(`assert hasattr(module, x)`, the spec's `ContractError`) or an exception
propagated out of a judge call. -/
inductive RunErr (E : Type) where
  | contractError (moduleName : String)
  | judgeError (e : E)

/-- An imported collaborator namespace: whether it has its required
attribute, and the collection held by that attribute. -/
structure NSpace (α : Type) where
  hasAttr : Bool
  items : List α

/-- The test loop of `run`: for each test in input order, invoke
`test.judge(models.models, stop_on_error=stop_on_error)`; an exception
aborts the loop immediately.  Also returns the trace of judge calls made. -/
def judgeTests {M S X E : Type} (models : List M) (soe : Bool) :
    List (TestObj M S E) →
    List (Ev M S X E) × Except E (List (TestObj M S E × S))
  | [] => ([], .ok [])
  | t :: rest =>
    match t.judge models soe with
    | .error e => ([.testCall t soe], .error e)
    | .ok s =>
      let out := judgeTests models soe rest
      (.testCall t soe :: out.1, out.2.map (fun l => (t, s) :: l))

/-- The suite loop of `run`, after all tests: for each suite in input
order, invoke `suite.judge(models.models, stop_on_error=stop_on_error)`. -/
def judgeSuites {M S X E : Type} (models : List M) (soe : Bool) :
    List (SuiteObj M X E) →
    List (Ev M S X E) × Except E (List (SuiteObj M X E × X))
  | [] => ([], .ok [])
  | s :: rest =>
    match s.judge models soe with
    | .error e => ([.suiteCall s soe], .error e)
    | .ok x =>
      let out := judgeSuites models soe rest
      (.suiteCall s soe :: out.1, out.2.map (fun l => (s, x) :: l))

/-- Shallow embedding of `run(config, path, stop_on_error)` after the
imports: validate that each of the models/tests/suites namespaces exposes
its required attribute (in that order), then run every test and then every
suite against the models, propagating any judge exception.  Returns the
trace of judge invocations together with the collected
`(test, score_array)` and `(suite, score_matrix)` pairs or the error. -/
def run {M S X E : Type} (modelsNS : NSpace M)
    (testsNS : NSpace (TestObj M S E)) (suitesNS : NSpace (SuiteObj M X E))
    (stop_on_error : Bool) :
    List (Ev M S X E) ×
      Except (RunErr E)
        (List (TestObj M S E × S) × List (SuiteObj M X E × X)) :=
  if ¬ modelsNS.hasAttr then ([], .error (.contractError "models"))
  else if ¬ testsNS.hasAttr then ([], .error (.contractError "tests"))
  else if ¬ suitesNS.hasAttr then ([], .error (.contractError "suites"))
  else
    let tOut : List (Ev M S X E) × Except E (List (TestObj M S E × S)) :=
      judgeTests modelsNS.items stop_on_error testsNS.items
    match tOut.2 with
    | .error e => (tOut.1, .error (.judgeError e))
    | .ok tRes =>
      let sOut : List (Ev M S X E) × Except E (List (SuiteObj M X E × X)) :=
        judgeSuites modelsNS.items stop_on_error suitesNS.items
      match sOut.2 with
      | .error e => (tOut.1 ++ sOut.1, .error (.judgeError e))
      | .ok sRes => (tOut.1 ++ sOut.1, .ok (tRes, sRes))

section AssocLemmas

variable {κ α : Type} [DecidableEq κ]

theorem lookupA_setA_self (d : List (κ × α)) (k : κ) (v : α) :
    lookupA (setA d k v) k = some v := by
  induction d with
  | nil => simp [setA, lookupA]
  | cons p rest ih =>
    by_cases h : p.1 = k
    · simp [setA, h, lookupA]
    · simp [setA, h, lookupA, ih]

theorem lookupA_setA_ne (d : List (κ × α)) (k k' : κ) (v : α) (h : k' ≠ k) :
    lookupA (setA d k v) k' = lookupA d k' := by
  induction d with
  | nil =>
    simp only [setA, lookupA]
    rw [if_neg (fun hk => h hk.symm)]
  | cons p rest ih =>
    by_cases hp : p.1 = k
    · subst hp
      simp only [setA, if_pos rfl, lookupA]
      rw [if_neg (fun hk => h hk.symm), if_neg]
      intro hk
      exact h hk.symm
    · simp [setA, hp, lookupA, ih]

theorem lookupA_eq_none_of_not_mem (s : List (κ × α)) (k : κ)
    (h : k ∉ s.map Prod.fst) : lookupA s k = none := by
  induction s with
  | nil => simp [lookupA]
  | cons p rest ih =>
    simp only [List.map_cons, List.mem_cons] at h
    push_neg at h
    simp only [lookupA]
    rw [if_neg (fun hk => h.1 hk.symm)]
    exact ih h.2

theorem lookupA_updateA_of_none (d s : List (κ × α)) (k : κ)
    (h : lookupA s k = none) : lookupA (updateA d s) k = lookupA d k := by
  induction s generalizing d with
  | nil => simp [updateA]
  | cons p rest ih =>
    simp only [lookupA] at h
    by_cases hp : p.1 = k
    · simp [hp] at h
    · simp only [hp, if_false] at h
      show lookupA (updateA (setA d p.1 p.2) rest) k = lookupA d k
      rw [ih _ h, lookupA_setA_ne _ _ _ _ (fun hk => hp hk.symm)]

theorem lookupA_updateA_of_some (d s : List (κ × α)) (k : κ) (v : α)
    (hn : (s.map Prod.fst).Nodup) (h : lookupA s k = some v) :
    lookupA (updateA d s) k = some v := by
  induction s generalizing d with
  | nil => simp [lookupA] at h
  | cons p rest ih =>
    simp only [List.map_cons, List.nodup_cons] at hn
    simp only [lookupA] at h
    by_cases hp : p.1 = k
    · simp only [hp, if_pos rfl] at h
      cases h
      show lookupA (updateA (setA d p.1 p.2) rest) k = some p.2
      rw [lookupA_updateA_of_none _ _ _
        (lookupA_eq_none_of_not_mem _ _ (hp ▸ hn.1)), hp,
        lookupA_setA_self]
    · simp only [hp, if_false] at h
      exact ih _ hn.2 h

end AssocLemmas

theorem canon_instanceSigInput (i : Nat) (a : SValue) :
    (instanceSigInput i a).canon =
      .vdict [("args", a.canon), ("id", .vint i)] := rfl

theorem canon_valueSigInput (d : Dict) (a : SValue) :
    (valueSigInput d a).canon =
      .vdict [("args", a.canon),
        ("attrs", (SValue.vdict (publicAttrs d)).canon)] := rfl

/-- C7: when the configured sharing policy is neither `'value'` nor
`'instance'`, the wrapped call fails with the `ValueError` of
`method_cache`, the run cache is unchanged (no lookup or insertion takes
effect), and the expensive operation is not executed. -/
theorem method_cache_unsupported_policy
    (byPolicy method funcName : String) (op : Dict → Dict → Dict)
    (func : Dict → Dict) (now : Nat) (model : Model)
    (kwargs : List (String × SValue)) (cache : RunCache)
    (hv : byPolicy ≠ "value") (hi : byPolicy ≠ "instance")
    (hm : method ∈ model.methods) :
    decorate byPolicy method funcName op func now model kwargs cache =
      ⟨cache,
        .error (.valueError "Cache type must be 'value' or 'instance'"),
        0⟩ := by
  simp [decorate, computeSignature, hv, hi, hm]

theorem method_cache_unsupported_policy_witness :
    ("class" : String) ≠ "value" ∧ ("class" : String) ≠ "instance" ∧
      "run" ∈ (["run"] : List String) ∧
      decorate "class" "run" "run" (fun d _ => d) id 0
          ⟨[("x", SValue.vint 5)], 0, ["run"]⟩ [] [] =
        ⟨[],
          .error (.valueError "Cache type must be 'value' or 'instance'"),
          0⟩ :=
  ⟨by decide, by decide, by decide,
    method_cache_unsupported_policy "class" "run" "run" (fun d _ => d) id 0
      ⟨[("x", SValue.vint 5)], 0, ["run"]⟩ [] [] (by decide) (by decide)
      (by decide)⟩

/-- C3: on a cache hit (the fingerprint is present in the run cache), the
wrapper restores the model's attributes from the cached snapshot by
`model.__dict__.update(attrs)` — overwriting every attribute the snapshot
holds — does not execute the expensive operation, and leaves the cache
unchanged; only the wrapped body runs afterwards. -/
theorem method_cache_hit_restores
    (byPolicy method funcName : String) (op : Dict → Dict → Dict)
    (func : Dict → Dict) (now : Nat) (model : Model)
    (kwargs : List (String × SValue)) (cache : RunCache)
    (sig : Fingerprint) (ts : Nat) (snap : Dict)
    (hm : method ∈ model.methods)
    (hsig : computeSignature byPolicy model
      (methodArgsOf funcName method kwargs) = .ok sig)
    (hhit : lookupA cache sig = some (ts, snap)) :
    decorate byPolicy method funcName op func now model kwargs cache =
      ⟨cache, .ok (func (updateA model.attrs snap)), 0⟩ := by
  simp [decorate, hm, hsig, hhit]

theorem method_cache_hit_restores_witness :
    lookupA
        [(((valueSigInput [("x", SValue.vint 5)] (SValue.vdict [])).canon),
          (3, [("x", SValue.vint 10)]))]
        ((valueSigInput [("x", SValue.vint 5)] (SValue.vdict [])).canon) =
      some (3, [("x", SValue.vint 10)]) ∧
    decorate "value" "run" "run" (fun d _ => d) id 9
        ⟨[("x", SValue.vint 5)], 0, ["run"]⟩ []
        [(((valueSigInput [("x", SValue.vint 5)] (SValue.vdict [])).canon),
          (3, [("x", SValue.vint 10)]))] =
      ⟨[(((valueSigInput [("x", SValue.vint 5)] (SValue.vdict [])).canon),
          (3, [("x", SValue.vint 10)]))],
        .ok (updateA [("x", SValue.vint 5)] [("x", SValue.vint 10)]), 0⟩ :=
  ⟨by decide,
    method_cache_hit_restores "value" "run" "run" (fun d _ => d) id 9
      ⟨[("x", SValue.vint 5)], 0, ["run"]⟩ []
      [(((valueSigInput [("x", SValue.vint 5)] (SValue.vdict [])).canon),
        (3, [("x", SValue.vint 10)]))]
      ((valueSigInput [("x", SValue.vint 5)] (SValue.vdict [])).canon)
      3 [("x", SValue.vint 10)] (by decide) rfl (by decide)⟩

/-- C10: cache-hit restoration is a merge via `dict.update`: every
attribute present in the snapshot is overwritten to its cached value,
while any attribute of the model absent from the snapshot keeps its
current value; the snapshot does not fully replace the model's state. -/
theorem method_cache_hit_merge
    (byPolicy method funcName : String) (op : Dict → Dict → Dict)
    (now : Nat) (model : Model) (kwargs : List (String × SValue))
    (cache : RunCache) (sig : Fingerprint) (ts : Nat) (snap : Dict)
    (hm : method ∈ model.methods)
    (hsig : computeSignature byPolicy model
      (methodArgsOf funcName method kwargs) = .ok sig)
    (hhit : lookupA cache sig = some (ts, snap))
    (hsnap : (snap.map Prod.fst).Nodup) :
    (decorate byPolicy method funcName op id now model kwargs cache).result
        = .ok (updateA model.attrs snap) ∧
      (∀ k v, lookupA snap k = some v →
        lookupA (updateA model.attrs snap) k = some v) ∧
      (∀ k, lookupA snap k = none →
        lookupA (updateA model.attrs snap) k = lookupA model.attrs k) := by
  refine ⟨by simp [decorate, hm, hsig, hhit], ?_, ?_⟩
  · exact fun k v h => lookupA_updateA_of_some _ _ _ _ hsnap h
  · exact fun k h => lookupA_updateA_of_none _ _ _ h

theorem method_cache_hit_merge_witness :
    lookupA (updateA [("x", SValue.vint 5), ("z", SValue.vint 7)]
        [("x", SValue.vint 10), ("y", SValue.vint 1)]) "x" =
      some (SValue.vint 10) ∧
    lookupA (updateA [("x", SValue.vint 5), ("z", SValue.vint 7)]
        [("x", SValue.vint 10), ("y", SValue.vint 1)]) "z" =
      some (SValue.vint 7) :=
  ⟨(method_cache_hit_merge "value" "run" "run" (fun d _ => d) 9
      ⟨[("x", SValue.vint 5), ("z", SValue.vint 7)], 0, ["run"]⟩ []
      [(((valueSigInput [("x", SValue.vint 5), ("z", SValue.vint 7)]
          (SValue.vdict [])).canon),
        (3, [("x", SValue.vint 10), ("y", SValue.vint 1)]))]
      ((valueSigInput [("x", SValue.vint 5), ("z", SValue.vint 7)]
        (SValue.vdict [])).canon)
      3 [("x", SValue.vint 10), ("y", SValue.vint 1)]
      (by decide) rfl (by decide) (by decide)).2.1 "x" (SValue.vint 10)
      (by decide),
    (method_cache_hit_merge "value" "run" "run" (fun d _ => d) 9
      ⟨[("x", SValue.vint 5), ("z", SValue.vint 7)], 0, ["run"]⟩ []
      [(((valueSigInput [("x", SValue.vint 5), ("z", SValue.vint 7)]
          (SValue.vdict [])).canon),
        (3, [("x", SValue.vint 10), ("y", SValue.vint 1)]))]
      ((valueSigInput [("x", SValue.vint 5), ("z", SValue.vint 7)]
        (SValue.vdict [])).canon)
      3 [("x", SValue.vint 10), ("y", SValue.vint 1)]
      (by decide) rfl (by decide) (by decide)).2.2 "z" (by decide)⟩

/-- C6 counterexample: a model whose (public) attribute holds an
unencodable value.  The claim says the wrapper falls back to uncached
always-execute behaviour and continues; instead the call ends in the
`FingerprintError` and the expensive operation is never executed. -/
theorem method_cache_fingerprint_error_cex :
    (decorate "value" "run" "run"
        (fun d _ => setA d "ran" (SValue.vint 1)) id 0
        ⟨[("h", SValue.vunenc 0)], 0, ["run"]⟩ [] []).result =
      .error .fingerprintError ∧
    (decorate "value" "run" "run"
        (fun d _ => setA d "ran" (SValue.vint 1)) id 0
        ⟨[("h", SValue.vunenc 0)], 0, ["run"]⟩ [] []).opRuns = 0 :=
  ⟨rfl, rfl⟩

/-- C6 (amended): when the fingerprint input cannot be canonically
encoded, fingerprinting fails with a `FingerprintError`, which the wrapper
does not catch: the error propagates out of the call, the expensive
operation is not executed, and the run cache is left unchanged — there is
no fallback to uncached execution. -/
theorem method_cache_fingerprint_error_aborts
    (method funcName : String) (op : Dict → Dict → Dict)
    (func : Dict → Dict) (now : Nat) (model : Model)
    (kwargs : List (String × SValue)) (cache : RunCache)
    (hm : method ∈ model.methods)
    (henc : (valueSigInput model.attrs
      (methodArgsOf funcName method kwargs)).encodable = false) :
    decorate "value" method funcName op func now model kwargs cache =
      ⟨cache, .error .fingerprintError, 0⟩ := by
  simp [decorate, computeSignature, dict_hash, hm, henc]

theorem method_cache_fingerprint_error_aborts_witness :
    (valueSigInput [("h", SValue.vunenc 0)]
        (methodArgsOf "run" "run" [])).encodable = false ∧
    decorate "value" "run" "run" (fun d _ => setA d "ran" (SValue.vint 1))
        id 4 ⟨[("h", SValue.vunenc 0)], 1, ["run"]⟩ [] [] =
      ⟨[], .error .fingerprintError, 0⟩ :=
  ⟨by decide,
    method_cache_fingerprint_error_aborts "run" "run"
      (fun d _ => setA d "ran" (SValue.vint 1)) id 4
      ⟨[("h", SValue.vunenc 0)], 1, ["run"]⟩ [] [] (by decide) (by decide)⟩

/-- C1 counterexample: operation `op` deletes public attribute `x` and
creates `y`.  Both invocations use identical model state (`x = 5`) and
identical (empty) arguments, and the operation runs exactly once; yet the
restored state after call 2 is `{x: 5, y: 1}` (cache-hit restoration
merges the snapshot over the current dict) while call 1 left `{y: 1}`, so
the observable public attributes differ. -/
theorem method_cache_idempotent_cex :
    (decorate "value" "run" "run" (fun _ _ => [("y", SValue.vint 1)]) id 7
        ⟨[("x", SValue.vint 5)], 0, ["run"]⟩ [] []).opRuns +
      (decorate "value" "run" "run" (fun _ _ => [("y", SValue.vint 1)]) id 8
        ⟨[("x", SValue.vint 5)], 0, ["run"]⟩ []
        (decorate "value" "run" "run" (fun _ _ => [("y", SValue.vint 1)])
          id 7 ⟨[("x", SValue.vint 5)], 0, ["run"]⟩ [] []).cache).opRuns
      = 1 ∧
    (decorate "value" "run" "run" (fun _ _ => [("y", SValue.vint 1)]) id 7
        ⟨[("x", SValue.vint 5)], 0, ["run"]⟩ [] []).result =
      .ok [("y", SValue.vint 1)] ∧
    (decorate "value" "run" "run" (fun _ _ => [("y", SValue.vint 1)]) id 8
        ⟨[("x", SValue.vint 5)], 0, ["run"]⟩ []
        (decorate "value" "run" "run" (fun _ _ => [("y", SValue.vint 1)])
          id 7 ⟨[("x", SValue.vint 5)], 0, ["run"]⟩ [] []).cache).result =
      .ok [("x", SValue.vint 5), ("y", SValue.vint 1)] ∧
    publicAttrs [("x", SValue.vint 5), ("y", SValue.vint 1)] ≠
      publicAttrs [("y", SValue.vint 1)] :=
  ⟨rfl, rfl, rfl, by decide⟩

/-- C1 (amended): two invocations of the wrapped method with identical
model state and identical arguments, starting from a cache that does not
yet hold their fingerprint, run the underlying expensive operation exactly
once, and — provided the operation only overwrites or adds attributes
(restoring its result over the pre-call state reproduces it exactly; in
particular it deletes none) — the model's attributes after the second
invocation equal those after the first. -/
theorem method_cache_idempotent
    (method funcName : String) (op : Dict → Dict → Dict)
    (func : Dict → Dict) (now1 now2 : Nat) (model : Model)
    (kwargs : List (String × SValue)) (cache : RunCache) (argD : Dict)
    (hm : method ∈ model.methods)
    (hargD : methodArgsOf funcName method kwargs = .vdict argD)
    (henc : (valueSigInput model.attrs (.vdict argD)).encodable = true)
    (hmiss : lookupA cache
      ((valueSigInput model.attrs (.vdict argD)).canon) = none)
    (hext : updateA model.attrs (op model.attrs argD) = op model.attrs argD) :
    (decorate "value" method funcName op func now1 model kwargs cache).opRuns +
      (decorate "value" method funcName op func now2 model kwargs
        (decorate "value" method funcName op func now1 model kwargs
          cache).cache).opRuns = 1 ∧
    (decorate "value" method funcName op func now2 model kwargs
        (decorate "value" method funcName op func now1 model kwargs
          cache).cache).result =
      (decorate "value" method funcName op func now1 model kwargs
        cache).result := by
  have e1 : decorate "value" method funcName op func now1 model kwargs cache =
      ⟨setA cache ((valueSigInput model.attrs (.vdict argD)).canon)
        (now1, op model.attrs argD), .ok (func (op model.attrs argD)), 1⟩ := by
    simp [decorate, computeSignature, dict_hash, hm, hargD, henc, hmiss]
  have e2 : decorate "value" method funcName op func now2 model kwargs
      (setA cache ((valueSigInput model.attrs (.vdict argD)).canon)
        (now1, op model.attrs argD)) =
      ⟨setA cache ((valueSigInput model.attrs (.vdict argD)).canon)
        (now1, op model.attrs argD),
        .ok (func (updateA model.attrs (op model.attrs argD))), 0⟩ := by
    simp [decorate, computeSignature, dict_hash, hm, hargD, henc,
      lookupA_setA_self]
  rw [e1]
  simp only
  rw [e2]
  simp [hext]

theorem method_cache_idempotent_witness :
    methodArgsOf "run" "run" [] = .vdict [] ∧
    updateA [("x", SValue.vint 5)]
        ((fun d (_ : Dict) => setA d "x" (SValue.vint 10))
          [("x", SValue.vint 5)] []) =
      (fun d (_ : Dict) => setA d "x" (SValue.vint 10))
        [("x", SValue.vint 5)] [] ∧
    (decorate "value" "run" "run"
        (fun d _ => setA d "x" (SValue.vint 10)) id 7
        ⟨[("x", SValue.vint 5)], 0, ["run"]⟩ [] []).opRuns +
      (decorate "value" "run" "run"
        (fun d _ => setA d "x" (SValue.vint 10)) id 8
        ⟨[("x", SValue.vint 5)], 0, ["run"]⟩ []
        (decorate "value" "run" "run"
          (fun d _ => setA d "x" (SValue.vint 10)) id 7
          ⟨[("x", SValue.vint 5)], 0, ["run"]⟩ [] []).cache).opRuns = 1 ∧
    (decorate "value" "run" "run"
        (fun d _ => setA d "x" (SValue.vint 10)) id 8
        ⟨[("x", SValue.vint 5)], 0, ["run"]⟩ []
        (decorate "value" "run" "run"
          (fun d _ => setA d "x" (SValue.vint 10)) id 7
          ⟨[("x", SValue.vint 5)], 0, ["run"]⟩ [] []).cache).result =
      (decorate "value" "run" "run"
        (fun d _ => setA d "x" (SValue.vint 10)) id 7
        ⟨[("x", SValue.vint 5)], 0, ["run"]⟩ [] []).result :=
  ⟨rfl, by decide,
    (method_cache_idempotent "run" "run"
      (fun d _ => setA d "x" (SValue.vint 10)) id 7 8
      ⟨[("x", SValue.vint 5)], 0, ["run"]⟩ [] [] []
      (by decide) rfl (by decide) (by decide) (by decide)).1,
    (method_cache_idempotent "run" "run"
      (fun d _ => setA d "x" (SValue.vint 10)) id 7 8
      ⟨[("x", SValue.vint 5)], 0, ["run"]⟩ [] [] []
      (by decide) rfl (by decide) (by decide) (by decide)).2⟩

/-- C5: under the `by='instance'` policy the fingerprint is computed over
the model's identity (`id(model)`) plus the call arguments, so two
distinct instances — even with identical attributes and identical
arguments — have distinct fingerprints, never share a cache entry, and
the expensive operation runs once for each of them. -/
theorem method_cache_instance_isolation
    (method funcName : String) (op : Dict → Dict → Dict)
    (func : Dict → Dict) (now1 now2 : Nat) (m1 m2 : Model)
    (kwargs : List (String × SValue)) (cache : RunCache) (argD : Dict)
    (hm1 : method ∈ m1.methods) (hm2 : method ∈ m2.methods)
    (hid : m1.instId ≠ m2.instId) (_hattrs : m1.attrs = m2.attrs)
    (hargD : methodArgsOf funcName method kwargs = .vdict argD)
    (henc1 : (instanceSigInput m1.instId (.vdict argD)).encodable = true)
    (henc2 : (instanceSigInput m2.instId (.vdict argD)).encodable = true)
    (h1 : lookupA cache
      ((instanceSigInput m1.instId (.vdict argD)).canon) = none)
    (h2 : lookupA cache
      ((instanceSigInput m2.instId (.vdict argD)).canon) = none) :
    (instanceSigInput m1.instId (.vdict argD)).canon ≠
        (instanceSigInput m2.instId (.vdict argD)).canon ∧
      (decorate "instance" method funcName op func now1 m1 kwargs
        cache).opRuns = 1 ∧
      (decorate "instance" method funcName op func now2 m2 kwargs
        (decorate "instance" method funcName op func now1 m1 kwargs
          cache).cache).opRuns = 1 := by
  have hne : (instanceSigInput m1.instId (SValue.vdict argD)).canon ≠
      (instanceSigInput m2.instId (SValue.vdict argD)).canon := by
    rw [canon_instanceSigInput, canon_instanceSigInput]
    intro h
    simp only [SValue.vdict.injEq, List.cons.injEq, Prod.mk.injEq,
      SValue.vint.injEq] at h
    exact hid (by exact_mod_cast h.2.1.2)
  have e1 : decorate "instance" method funcName op func now1 m1 kwargs cache =
      ⟨setA cache ((instanceSigInput m1.instId (.vdict argD)).canon)
        (now1, op m1.attrs argD), .ok (func (op m1.attrs argD)), 1⟩ := by
    simp [decorate, computeSignature, dict_hash, hm1, hargD, henc1, h1]
  have e2 : decorate "instance" method funcName op func now2 m2 kwargs
      (setA cache ((instanceSigInput m1.instId (.vdict argD)).canon)
        (now1, op m1.attrs argD)) =
      ⟨setA (setA cache ((instanceSigInput m1.instId (.vdict argD)).canon)
          (now1, op m1.attrs argD))
          ((instanceSigInput m2.instId (.vdict argD)).canon)
          (now2, op m2.attrs argD),
        .ok (func (op m2.attrs argD)), 1⟩ := by
    simp [decorate, computeSignature, dict_hash, hm2, hargD, henc2,
      lookupA_setA_ne _ _ _ _ (Ne.symm hne), h2]
  refine ⟨hne, ?_, ?_⟩
  · rw [e1]
  · rw [e1]
    simp only
    rw [e2]

theorem method_cache_instance_isolation_witness :
    (0 : Nat) ≠ (1 : Nat) ∧
    (decorate "instance" "run" "run"
        (fun d _ => setA d "r" (SValue.vint 2)) id 5
        ⟨[("x", SValue.vint 5)], 0, ["run"]⟩ [] []).opRuns = 1 ∧
    (decorate "instance" "run" "run"
        (fun d _ => setA d "r" (SValue.vint 2)) id 6
        ⟨[("x", SValue.vint 5)], 1, ["run"]⟩ []
        (decorate "instance" "run" "run"
          (fun d _ => setA d "r" (SValue.vint 2)) id 5
          ⟨[("x", SValue.vint 5)], 0, ["run"]⟩ [] []).cache).opRuns = 1 :=
  ⟨by decide,
    (method_cache_instance_isolation "run" "run"
      (fun d _ => setA d "r" (SValue.vint 2)) id 5 6
      ⟨[("x", SValue.vint 5)], 0, ["run"]⟩
      ⟨[("x", SValue.vint 5)], 1, ["run"]⟩ [] [] []
      (by decide) (by decide) (by decide) rfl rfl (by decide) (by decide)
      (by decide) (by decide)).2.1,
    (method_cache_instance_isolation "run" "run"
      (fun d _ => setA d "r" (SValue.vint 2)) id 5 6
      ⟨[("x", SValue.vint 5)], 0, ["run"]⟩
      ⟨[("x", SValue.vint 5)], 1, ["run"]⟩ [] [] []
      (by decide) (by decide) (by decide) rfl rfl (by decide) (by decide)
      (by decide) (by decide)).2.2⟩

/-- C4: under the `by='value'` policy the fingerprint is computed over
exactly the model's public attributes (names not starting with `'_'`)
together with the call arguments: any two models with equal public
attribute mappings and equal arguments — their private attributes and
instance identities may differ arbitrarily — produce the same signature,
so the second call hits the entry the first call created, regardless of
which instance produced it. -/
theorem method_cache_value_sharing
    (method funcName : String) (op : Dict → Dict → Dict)
    (func : Dict → Dict) (now1 now2 : Nat) (m1 m2 : Model)
    (kwargs : List (String × SValue)) (cache : RunCache) (argD : Dict)
    (hm1 : method ∈ m1.methods) (hm2 : method ∈ m2.methods)
    (hpub : (SValue.vdict (publicAttrs m1.attrs)).canon =
      (SValue.vdict (publicAttrs m2.attrs)).canon)
    (hargD : methodArgsOf funcName method kwargs = .vdict argD)
    (henc1 : (valueSigInput m1.attrs (.vdict argD)).encodable = true)
    (henc2 : (valueSigInput m2.attrs (.vdict argD)).encodable = true)
    (hmiss : lookupA cache
      ((valueSigInput m1.attrs (.vdict argD)).canon) = none) :
    computeSignature "value" m1 (.vdict argD) =
        computeSignature "value" m2 (.vdict argD) ∧
      (decorate "value" method funcName op func now1 m1 kwargs
        cache).opRuns = 1 ∧
      (decorate "value" method funcName op func now2 m2 kwargs
        (decorate "value" method funcName op func now1 m1 kwargs
          cache).cache).opRuns = 0 := by
  have hcanon : (valueSigInput m1.attrs (SValue.vdict argD)).canon =
      (valueSigInput m2.attrs (SValue.vdict argD)).canon := by
    rw [canon_valueSigInput, canon_valueSigInput, hpub]
  have hsig : computeSignature "value" m1 (SValue.vdict argD) =
      computeSignature "value" m2 (SValue.vdict argD) := by
    simp [computeSignature, dict_hash, henc1, henc2, hcanon]
  have e1 : decorate "value" method funcName op func now1 m1 kwargs cache =
      ⟨setA cache ((valueSigInput m1.attrs (.vdict argD)).canon)
        (now1, op m1.attrs argD), .ok (func (op m1.attrs argD)), 1⟩ := by
    simp [decorate, computeSignature, dict_hash, hm1, hargD, henc1, hmiss]
  have e2 : decorate "value" method funcName op func now2 m2 kwargs
      (setA cache ((valueSigInput m1.attrs (.vdict argD)).canon)
        (now1, op m1.attrs argD)) =
      ⟨setA cache ((valueSigInput m1.attrs (.vdict argD)).canon)
        (now1, op m1.attrs argD),
        .ok (func (updateA m2.attrs (op m1.attrs argD))), 0⟩ := by
    have hl : lookupA
        (setA cache ((valueSigInput m1.attrs (SValue.vdict argD)).canon)
          (now1, op m1.attrs argD))
        ((valueSigInput m2.attrs (SValue.vdict argD)).canon) =
        some (now1, op m1.attrs argD) := by
      rw [← hcanon, lookupA_setA_self]
    simp [decorate, computeSignature, dict_hash, hm2, hargD, henc2, hl]
  refine ⟨hsig, ?_, ?_⟩
  · rw [e1]
  · rw [e1]
    simp only
    rw [e2]

theorem method_cache_value_sharing_witness :
    (SValue.vdict (publicAttrs [("x", SValue.vint 5),
        ("_p", SValue.vint 1)])).canon =
      (SValue.vdict (publicAttrs [("x", SValue.vint 5),
        ("_q", SValue.vint 2)])).canon ∧
    (decorate "value" "run" "run"
        (fun d _ => setA d "r" (SValue.vint 2)) id 5
        ⟨[("x", SValue.vint 5), ("_p", SValue.vint 1)], 0, ["run"]⟩
        [] []).opRuns = 1 ∧
    (decorate "value" "run" "run"
        (fun d _ => setA d "r" (SValue.vint 2)) id 6
        ⟨[("x", SValue.vint 5), ("_q", SValue.vint 2)], 1, ["run"]⟩ []
        (decorate "value" "run" "run"
          (fun d _ => setA d "r" (SValue.vint 2)) id 5
          ⟨[("x", SValue.vint 5), ("_p", SValue.vint 1)], 0, ["run"]⟩
          [] []).cache).opRuns = 0 :=
  ⟨by decide,
    (method_cache_value_sharing "run" "run"
      (fun d _ => setA d "r" (SValue.vint 2)) id 5 6
      ⟨[("x", SValue.vint 5), ("_p", SValue.vint 1)], 0, ["run"]⟩
      ⟨[("x", SValue.vint 5), ("_q", SValue.vint 2)], 1, ["run"]⟩ [] [] []
      (by decide) (by decide) (by decide) rfl (by decide) (by decide)
      (by decide)).2.1,
    (method_cache_value_sharing "run" "run"
      (fun d _ => setA d "r" (SValue.vint 2)) id 5 6
      ⟨[("x", SValue.vint 5), ("_p", SValue.vint 1)], 0, ["run"]⟩
      ⟨[("x", SValue.vint 5), ("_q", SValue.vint 2)], 1, ["run"]⟩ [] [] []
      (by decide) (by decide) (by decide) rfl (by decide) (by decide)
      (by decide)).2.2⟩

theorem judgeTests_all_ok {M S X E : Type} (models : List M) (soe : Bool)
    (score : TestObj M S E → S) (ts : List (TestObj M S E))
    (h : ∀ t ∈ ts, t.judge models soe = .ok (score t)) :
    judgeTests (X := X) models soe ts =
      (ts.map (fun t => .testCall t soe),
        .ok (ts.map (fun t => (t, score t)))) := by
  induction ts with
  | nil => rfl
  | cons t rest ih =>
    have ht := h t (by simp)
    have ihr := ih (fun x hx => h x (by simp [hx]))
    simp [judgeTests, ht, ihr, Except.map]

theorem judgeSuites_all_ok {M S X E : Type} (models : List M) (soe : Bool)
    (mscore : SuiteObj M X E → X) (ss : List (SuiteObj M X E))
    (h : ∀ s ∈ ss, s.judge models soe = .ok (mscore s)) :
    judgeSuites (S := S) models soe ss =
      (ss.map (fun s => .suiteCall s soe),
        .ok (ss.map (fun s => (s, mscore s)))) := by
  induction ss with
  | nil => rfl
  | cons s rest ih =>
    have hs := h s (by simp)
    have ihr := ih (fun x hx => h x (by simp [hx]))
    simp [judgeSuites, hs, ihr, Except.map]

/-- C2: if validation passes, `stop_on_error` is `True` and the first
test's judge call raises, `run` propagates that same exception: the judge
trace shows only that single call — the second test and every suite are
never judged. -/
theorem run_fail_fast {M S X E : Type} (modelsNS : NSpace M)
    (testsNS : NSpace (TestObj M S E)) (suitesNS : NSpace (SuiteObj M X E))
    (t1 : TestObj M S E) (rest : List (TestObj M S E)) (e : E)
    (hM : modelsNS.hasAttr = true) (hT : testsNS.hasAttr = true)
    (hS : suitesNS.hasAttr = true) (hitems : testsNS.items = t1 :: rest)
    (herr : t1.judge modelsNS.items true = .error e) :
    run modelsNS testsNS suitesNS true =
      ([.testCall t1 true], .error (.judgeError e)) := by
  simp [run, hM, hT, hS, hitems, judgeTests, herr]

theorem run_fail_fast_witness :
    (TestObj.mk (fun _ _ => Except.error 7) : TestObj Nat Nat Nat).judge
        [] true = .error 7 ∧
    run (M := Nat) (S := Nat) (X := Nat) (E := Nat) ⟨true, []⟩
        ⟨true, [⟨fun _ _ => .error 7⟩, ⟨fun _ _ => .ok 0⟩]⟩
        ⟨true, [⟨fun _ _ => .ok 0⟩]⟩ true =
      ([.testCall ⟨fun _ _ => .error 7⟩ true], .error (.judgeError 7)) :=
  ⟨rfl,
    run_fail_fast ⟨true, []⟩
      ⟨true, [⟨fun _ _ => .error 7⟩, ⟨fun _ _ => .ok 0⟩]⟩
      ⟨true, [⟨fun _ _ => .ok 0⟩]⟩ ⟨fun _ _ => .error 7⟩
      [⟨fun _ _ => .ok 0⟩] 7 rfl rfl rfl rfl rfl⟩

/-- C8: when a models/tests/suites collaborator namespace lacks its
required attribute, `run` fails the assert-based validation (the spec's
`ContractError`) before the evaluation loop: the judge trace is empty —
no test or suite is ever judged. -/
theorem run_contract_validation {M S X E : Type} (modelsNS : NSpace M)
    (testsNS : NSpace (TestObj M S E)) (suitesNS : NSpace (SuiteObj M X E))
    (soe : Bool)
    (h : modelsNS.hasAttr = false ∨ testsNS.hasAttr = false ∨
      suitesNS.hasAttr = false) :
    (run modelsNS testsNS suitesNS soe).1 = ([] : List (Ev M S X E)) ∧
      ∃ name, (run modelsNS testsNS suitesNS soe).2 =
        .error (.contractError name) := by
  rcases h with h | h | h
  · exact ⟨by simp [run, h], "models", by simp [run, h]⟩
  · by_cases hm : modelsNS.hasAttr = true
    · exact ⟨by simp [run, hm, h], "tests", by simp [run, hm, h]⟩
    · exact ⟨by simp [run, hm], "models", by simp [run, hm]⟩
  · by_cases hm : modelsNS.hasAttr = true
    · by_cases ht : testsNS.hasAttr = true
      · exact ⟨by simp [run, hm, ht, h], "suites", by simp [run, hm, ht, h]⟩
      · exact ⟨by simp [run, hm, ht], "tests", by simp [run, hm, ht]⟩
    · exact ⟨by simp [run, hm], "models", by simp [run, hm]⟩

theorem run_contract_validation_witness :
    (⟨false, []⟩ : NSpace (TestObj Nat Nat Nat)).hasAttr = false ∧
    (run (M := Nat) (S := Nat) (X := Nat) (E := Nat) ⟨true, []⟩
        ⟨false, []⟩ ⟨true, [⟨fun _ _ => .ok 0⟩]⟩ true).1 = [] ∧
    (run (M := Nat) (S := Nat) (X := Nat) (E := Nat) ⟨true, []⟩
        ⟨false, []⟩ ⟨true, [⟨fun _ _ => .ok 0⟩]⟩ true).2 =
      .error (.contractError "tests") :=
  ⟨rfl,
    (run_contract_validation ⟨true, []⟩ ⟨false, []⟩
      ⟨true, [⟨fun _ _ => .ok 0⟩]⟩ true (Or.inr (Or.inl rfl))).1,
    rfl⟩

/-- C9: when validation passes and every judge call succeeds, `run`
judges each test and then each suite exactly once, in input order (all
tests before all suites), passes the `stop_on_error` flag through to
every judge call unchanged, and returns the `(test, result)` and
`(suite, result)` pairs in the same input order. -/
theorem run_order_preserved {M S X E : Type} (modelsNS : NSpace M)
    (testsNS : NSpace (TestObj M S E)) (suitesNS : NSpace (SuiteObj M X E))
    (soe : Bool) (score : TestObj M S E → S) (mscore : SuiteObj M X E → X)
    (hM : modelsNS.hasAttr = true) (hT : testsNS.hasAttr = true)
    (hS : suitesNS.hasAttr = true)
    (hts : ∀ t ∈ testsNS.items,
      t.judge modelsNS.items soe = .ok (score t))
    (hss : ∀ s ∈ suitesNS.items,
      s.judge modelsNS.items soe = .ok (mscore s)) :
    run modelsNS testsNS suitesNS soe =
      (testsNS.items.map (fun t => .testCall t soe) ++
        suitesNS.items.map (fun s => .suiteCall s soe),
        .ok (testsNS.items.map (fun t => (t, score t)),
          suitesNS.items.map (fun s => (s, mscore s)))) := by
  simp [run, hM, hT, hS,
    judgeTests_all_ok modelsNS.items soe score testsNS.items hts,
    judgeSuites_all_ok modelsNS.items soe mscore suitesNS.items hss]

theorem run_order_preserved_witness :
    run (M := Nat) (S := Nat) (X := Nat) (E := Nat) ⟨true, [1, 2]⟩
        ⟨true, [⟨fun _ _ => .ok 5⟩, ⟨fun _ _ => .ok 5⟩]⟩
        ⟨true, [⟨fun _ _ => .ok 6⟩]⟩ true =
      ([.testCall ⟨fun _ _ => .ok 5⟩ true, .testCall ⟨fun _ _ => .ok 5⟩ true,
          .suiteCall ⟨fun _ _ => .ok 6⟩ true],
        .ok ([(⟨fun _ _ => .ok 5⟩, 5), (⟨fun _ _ => .ok 5⟩, 5)],
          [(⟨fun _ _ => .ok 6⟩, 6)])) :=
  run_order_preserved ⟨true, [1, 2]⟩
    ⟨true, [⟨fun _ _ => .ok 5⟩, ⟨fun _ _ => .ok 5⟩]⟩
    ⟨true, [⟨fun _ _ => .ok 6⟩]⟩ true (fun _ => 5) (fun _ => 6)
    rfl rfl rfl
    (by
      intro t ht
      cases ht with
      | head => rfl
      | tail _ ht2 =>
        cases ht2 with
        | head => rfl
        | tail _ ht3 => cases ht3)
    (by
      intro s hs
      cases hs with
      | head => rfl
      | tail _ hs2 => cases hs2)

end Sciunit
